import Mathlib

/-!
Verification of the Composite demo (`src/structural_patterns/composite/main.cc`)
against its specification.

The C++ code builds a tree of `Component` objects: `Leaf` (no children) and
`Composite` (ordered `std::list<Component *> children_`), each holding a raw
back-pointer `Component *parent_`.  We embed the heap shallowly: a node
identity is a `Nat` (standing for the object's address), the heap is a total
function from identities to node records, and each C++ member function becomes
a Lean function on that heap.
-/

set_option autoImplicit false

namespace CompositeDemo

/-- A node identity: stands for a `Component *` object address. -/
abbrev NodeId := Nat

/-- The dynamic type of a node: `Leaf` or `Composite`. -/
inductive NodeKind where
  | leaf
  | composite
  deriving DecidableEq, Repr

/-- The value of the raw pointer member `Component *parent_`.

`uninit` models the indeterminate value of the member after default
initialization: the class declares `Component *parent_;` with no initializer
and `Component() = default`, so a default-initialized object's `parent_` holds
no defined value.  `null` is `nullptr`, `ref p` points at node `p`. -/
inductive Parent where
  | uninit
  | null
  | ref (p : NodeId)
  deriving DecidableEq, Repr

/-- One `Component` object: its dynamic type, its `parent_` pointer and its
`children_` list (empty and meaningless for a `Leaf`, which has no such
member). -/
structure Node where
  kind : NodeKind
  parent : Parent
  children : List NodeId
  deriving DecidableEq, Repr

/-- The heap: every identity maps to a node record. -/
abbrev State := NodeId → Node

/-- Overwrite the `children_` member of node `i`. -/
def setChildren (s : State) (i : NodeId) (cs : List NodeId) : State :=
  fun j => if j = i then { s j with children := cs } else s j

/-- `Component::set_parent`: overwrite the `parent_` member of node `i`. -/
def setParent (s : State) (i : NodeId) (p : Parent) : State :=
  fun j => if j = i then { s j with parent := p } else s j

/-- A default-initialized `Component` (e.g. `Leaf l;`): `parent_` has no
initializer and `Component() = default`, so it is left indeterminate, while
`children_` (a `std::list`) default-constructs to empty. -/
def defaultInitNode (k : NodeKind) : Node :=
  { kind := k, parent := .uninit, children := [] }

/-- A value-initialized `Component` (e.g. `std::make_unique<Leaf>()` /
`std::make_shared<Composite>()`, which perform `new T()`): the object is
zero-initialized first because no constructor is user-provided, so `parent_`
starts as `nullptr`. -/
def valueInitNode (k : NodeKind) : Node :=
  { kind := k, parent := .null, children := [] }

/-- `std::list<Component *>::remove(component)`: erases every element equal to
the argument, keeping the relative order of the remainder. -/
def listRemoveAll (x : NodeId) : List NodeId → List NodeId
  | [] => []
  | c :: rest => if c = x then listRemoveAll x rest else c :: listRemoveAll x rest

/-- Virtual dispatch of `add`.  `Composite::add` runs
`children_.push_back(component); component->set_parent(this);`;
the base `Component::add` (inherited by `Leaf`) is `{}`. -/
def add (s : State) (self child : NodeId) : State :=
  match (s self).kind with
  | .composite =>
      setParent (setChildren s self ((s self).children ++ [child])) child (.ref self)
  | .leaf => s

/-- Virtual dispatch of `remove`.  `Composite::remove` runs
`children_.remove(component); component->set_parent(nullptr);`;
the base `Component::remove` (inherited by `Leaf`) is `{}`. -/
def remove (s : State) (self child : NodeId) : State :=
  match (s self).kind with
  | .composite =>
      setParent (setChildren s self (listRemoveAll child (s self).children)) child .null
  | .leaf => s

/-- The loop body of `Composite::execute`, folded over `children_`.
`ex` is the virtual call `c->execute()` on the current heap (it is passed the
heap and returns the possibly updated heap, so that the embedding does not
assume the call is pure); `lastOpt` is `children_.back()` (the loop never
reads it when the list is empty).  Each child contributes
`c->execute()` followed by `"+"` unless `c == children_.back()`. -/
def execChildren (ex : State → NodeId → Option (String × State))
    (lastOpt : Option NodeId) : State → List NodeId → Option (String × State)
  | s, [] => some ("", s)
  | s, c :: rest =>
    match ex s c with
    | none => none
    | some (rc, s1) =>
      match execChildren ex lastOpt s1 rest with
      | none => none
      | some (rr, s2) =>
          some ((if some c = lastOpt then rc else rc ++ "+") ++ rr, s2)

/-- Virtual dispatch of `execute` with a recursion-depth bound (`fuel`),
since the C++ recursion is bounded only by the actual tree depth and nothing
stops a client from building a cyclic structure.  `Leaf::execute` returns
`"Leaf"`; `Composite::execute` folds over `children_` and wraps the result as
`"Branch(" + result + ")"`. -/
def executeSt : Nat → State → NodeId → Option (String × State)
  | 0, _, _ => none
  | fuel + 1, s, self =>
    match (s self).kind with
    | .leaf => some ("Leaf", s)
    | .composite =>
      match execChildren (executeSt fuel) (s self).children.getLast? s
          (s self).children with
      | none => none
      | some (r, s') => some ("Branch(" ++ r ++ ")", s')

/-- The string results of calling `ex` on each element of `cs`, all on the
same heap `s` (the returned heaps are discarded). -/
def resultsOf (ex : State → NodeId → Option (String × State)) (s : State) :
    List NodeId → Option (List String)
  | [] => some []
  | c :: rest =>
    match ex s c with
    | none => none
    | some (r, _) =>
      match resultsOf ex s rest with
      | none => none
      | some rs => some (r :: rs)

/-- The string results of executing each element of `cs` on heap `s`. -/
def childResults (fuel : Nat) (s : State) (cs : List NodeId) :
    Option (List String) :=
  resultsOf (executeSt fuel) s cs

/-- `d` is reachable from `root` by one or more `children_` hops. -/
inductive Descendant (s : State) (root : NodeId) : NodeId → Prop where
  | step (c : NodeId) : c ∈ (s root).children → Descendant s root c
  | tail (p c : NodeId) : Descendant s root p → c ∈ (s p).children →
      Descendant s root c

/-- Modelled from the spec: the join the specification describes — each
child's result in order, `"+"` between consecutive elements, no trailing
separator. -/
def joinPlus : List String → String
  | [] => ""
  | [r] => r
  | r :: rest => r ++ "+" ++ joinPlus rest

/-! ### Concrete example heaps used by witnesses and counterexamples -/

/-- The demo tree of `main()` (property P4): node 0 = `tree`, 1 = `branch_1`
(children leaves 3, 4), 2 = `branch_2` (child leaf 5). -/
def exP4 : State := fun i =>
  match i with
  | 0 => { kind := .composite, parent := .null, children := [1, 2] }
  | 1 => { kind := .composite, parent := .ref 0, children := [3, 4] }
  | 2 => { kind := .composite, parent := .ref 0, children := [5] }
  | _ => { kind := .leaf, parent := .null, children := [] }

/-- A composite (node 0) holding the same leaf (node 1) twice. -/
def exDup : State := fun i =>
  match i with
  | 0 => { kind := .composite, parent := .null, children := [1, 1] }
  | _ => { kind := .leaf, parent := .ref 0, children := [] }

/-- Two empty composites (nodes 0 and 1) and a detached leaf (node 2). -/
def exTwo : State := fun i =>
  match i with
  | 0 => { kind := .composite, parent := .null, children := [] }
  | 1 => { kind := .composite, parent := .null, children := [] }
  | _ => { kind := .leaf, parent := .null, children := [] }

/-- A composite (node 0) whose only child is the composite node 1. -/
def exChain : State := fun i =>
  match i with
  | 0 => { kind := .composite, parent := .null, children := [1] }
  | 1 => { kind := .composite, parent := .ref 0, children := [] }
  | _ => { kind := .leaf, parent := .null, children := [] }

/-- A composite (node 0) holding leaves 1, 2, 3 in order. -/
def exABC : State := fun i =>
  match i with
  | 0 => { kind := .composite, parent := .null, children := [1, 2, 3] }
  | 1 => { kind := .leaf, parent := .ref 0, children := [] }
  | 2 => { kind := .leaf, parent := .ref 0, children := [] }
  | 3 => { kind := .leaf, parent := .ref 0, children := [] }
  | _ => { kind := .leaf, parent := .null, children := [] }

/-- Composite 0 owns leaf 2; composite 1 is empty. -/
def exOwn : State := fun i =>
  match i with
  | 0 => { kind := .composite, parent := .null, children := [2] }
  | 1 => { kind := .composite, parent := .null, children := [] }
  | _ => { kind := .leaf, parent := .ref 0, children := [] }

example : executeSt 3 exP4 0 =
    some ("Branch(Branch(Leaf+Leaf)+Branch(Leaf))", exP4) := rfl

example : executeSt 2 exDup 0 = some ("Branch(LeafLeaf)", exDup) := rfl

example : ((add (add exTwo 0 2) 1 2) 0).children = [2] := rfl

example : ((remove exDup 0 1) 0).children = [] := rfl

/-! ### Basic lemmas about the heap operations -/

@[simp]
theorem setChildren_apply (s : State) (i : NodeId) (cs : List NodeId)
    (j : NodeId) :
    setChildren s i cs j = if j = i then { s j with children := cs } else s j :=
  rfl

@[simp]
theorem setParent_apply (s : State) (i : NodeId) (p : Parent) (j : NodeId) :
    setParent s i p j = if j = i then { s j with parent := p } else s j :=
  rfl

theorem add_composite (s : State) (self child : NodeId)
    (hk : (s self).kind = .composite) :
    add s self child =
      setParent (setChildren s self ((s self).children ++ [child])) child
        (.ref self) := by
  unfold add
  split
  · rfl
  · rename_i hleaf
    rw [hk] at hleaf
    exact absurd hleaf (by simp)

theorem add_leaf (s : State) (self child : NodeId)
    (hk : (s self).kind = .leaf) : add s self child = s := by
  unfold add
  split
  · rename_i hcomp
    rw [hk] at hcomp
    exact absurd hcomp (by simp)
  · rfl

theorem remove_composite (s : State) (self child : NodeId)
    (hk : (s self).kind = .composite) :
    remove s self child =
      setParent (setChildren s self (listRemoveAll child (s self).children))
        child .null := by
  unfold remove
  split
  · rfl
  · rename_i hleaf
    rw [hk] at hleaf
    exact absurd hleaf (by simp)

theorem remove_leaf (s : State) (self child : NodeId)
    (hk : (s self).kind = .leaf) : remove s self child = s := by
  unfold remove
  split
  · rename_i hcomp
    rw [hk] at hcomp
    exact absurd hcomp (by simp)
  · rfl

/-- Neither `add` nor `remove` touches the dynamic type of any object. -/
@[simp]
theorem add_kind (s : State) (a b j : NodeId) :
    ((add s a b) j).kind = (s j).kind := by
  cases hk : (s a).kind with
  | leaf => rw [add_leaf s a b hk]
  | composite =>
    rw [add_composite s a b hk]
    simp only [setParent_apply, setChildren_apply]
    split <;> split <;> rfl

@[simp]
theorem remove_kind (s : State) (a b j : NodeId) :
    ((remove s a b) j).kind = (s j).kind := by
  cases hk : (s a).kind with
  | leaf => rw [remove_leaf s a b hk]
  | composite =>
    rw [remove_composite s a b hk]
    simp only [setParent_apply, setChildren_apply]
    split <;> split <;> rfl

/-! ### C9: `execute` never mutates the heap -/

theorem execChildren_state (ex : State → NodeId → Option (String × State))
    (lastOpt : Option NodeId)
    (hex : ∀ t c r t', ex t c = some (r, t') → t' = t) :
    ∀ (cs : List NodeId) (s : State) (r : String) (s' : State),
      execChildren ex lastOpt s cs = some (r, s') → s' = s := by
  intro cs
  induction cs with
  | nil =>
    intro s r s' h
    simp only [execChildren, Option.some.injEq, Prod.mk.injEq] at h
    exact h.2.symm
  | cons c rest ih =>
    intro s r s' h
    simp only [execChildren] at h
    split at h
    · exact absurd h (by simp)
    · rename_i rc s1 hc
      split at h
      · exact absurd h (by simp)
      · rename_i rr s2 hrest
        simp only [Option.some.injEq, Prod.mk.injEq] at h
        rw [← h.2]
        rw [ih s1 rr s2 hrest]
        exact hex s c rc s1 hc

/-- Whenever `executeSt` returns a result, the heap it returns is the heap it
was given. -/
theorem executeSt_preserves_state :
    ∀ (fuel : Nat) (s : State) (n : NodeId) (r : String) (s' : State),
      executeSt fuel s n = some (r, s') → s' = s := by
  intro fuel
  induction fuel with
  | zero => intro s n r s' h; exact absurd h (by simp [executeSt])
  | succ f ih =>
    intro s n r s' h
    simp only [executeSt] at h
    split at h
    · simp only [Option.some.injEq, Prod.mk.injEq] at h
      exact h.2.symm
    · split at h
      · exact absurd h (by simp)
      · rename_i rr s2 hch
        simp only [Option.some.injEq, Prod.mk.injEq] at h
        rw [← h.2]
        exact execChildren_state (executeSt f) _ ih _ s rr s2 hch

/-- C9: `execute` is pure with respect to tree shape.  Both `Leaf::execute`
and `Composite::execute` are `const` and only read `children_`; in the
embedding, whenever `executeSt` returns a result, the heap it returns is the
heap it was given, so every node's `children` list and `parent` pointer are
identical before and after the call. -/
theorem executeSt_pure (fuel : Nat) (s : State) (n : NodeId) (r : String)
    (s' : State) (h : executeSt fuel s n = some (r, s')) : s' = s :=
  executeSt_preserves_state fuel s n r s' h

/-- Witness for C9 at the demo tree of `main()`. -/
theorem executeSt_pure_witness : exP4 = exP4 :=
  executeSt_pure 3 exP4 0 "Branch(Branch(Leaf+Leaf)+Branch(Leaf))" exP4 rfl

/-! ### Field-wise characterization of `add` and `remove` on a composite -/

theorem add_children (s : State) (p n q : NodeId)
    (hk : (s p).kind = .composite) :
    ((add s p n) q).children =
      if q = p then (s p).children ++ [n] else (s q).children := by
  rw [add_composite s p n hk]
  simp only [setParent_apply, setChildren_apply]
  split <;> split <;> simp_all

theorem add_parent (s : State) (p n q : NodeId)
    (hk : (s p).kind = .composite) :
    ((add s p n) q).parent = if q = n then .ref p else (s q).parent := by
  rw [add_composite s p n hk]
  simp only [setParent_apply, setChildren_apply]
  split <;> split <;> simp_all

theorem remove_children (s : State) (p n q : NodeId)
    (hk : (s p).kind = .composite) :
    ((remove s p n) q).children =
      if q = p then listRemoveAll n (s p).children else (s q).children := by
  rw [remove_composite s p n hk]
  simp only [setParent_apply, setChildren_apply]
  split <;> split <;> simp_all

theorem remove_parent (s : State) (p n q : NodeId)
    (hk : (s p).kind = .composite) :
    ((remove s p n) q).parent = if q = n then .null else (s q).parent := by
  rw [remove_composite s p n hk]
  simp only [setParent_apply, setChildren_apply]
  split <;> split <;> simp_all

/-! ### Lemmas about `listRemoveAll` (`std::list::remove`) -/

theorem listRemoveAll_of_not_mem (n : NodeId) :
    ∀ (l : List NodeId), n ∉ l → listRemoveAll n l = l := by
  intro l
  induction l with
  | nil => intro _; rfl
  | cons c rest ih =>
    intro h
    simp only [List.mem_cons, not_or] at h
    simp only [listRemoveAll]
    rw [if_neg (fun hc => h.1 hc.symm), ih h.2]

theorem not_mem_listRemoveAll (n : NodeId) :
    ∀ (l : List NodeId), n ∉ listRemoveAll n l := by
  intro l
  induction l with
  | nil => simp [listRemoveAll]
  | cons c rest ih =>
    simp only [listRemoveAll]
    split
    · exact ih
    · rename_i hc
      simp only [List.mem_cons, not_or]
      exact ⟨fun h => hc h.symm, ih⟩

theorem listRemoveAll_append (n : NodeId) :
    ∀ (l1 l2 : List NodeId),
      listRemoveAll n (l1 ++ l2) = listRemoveAll n l1 ++ listRemoveAll n l2 := by
  intro l1 l2
  induction l1 with
  | nil => rfl
  | cons c rest ih =>
    simp only [List.cons_append, listRemoveAll]
    split
    · exact ih
    · simp only [List.append_eq]
      rw [ih]
      rfl

/-! ### C10: `add`/`remove` on a Leaf are silent no-ops -/

/-- C10: for every Leaf `l` and every Node `n`, `add(l, n)` and
`remove(l, n)` leave the entire heap unchanged and signal nothing.  A `Leaf`
inherits the empty-bodied base implementations `Component::add` and
`Component::remove`, so no object's `children_` or `parent_` changes. -/
theorem leaf_add_remove_noop (s : State) (l n : NodeId)
    (hk : (s l).kind = .leaf) : add s l n = s ∧ remove s l n = s :=
  ⟨add_leaf s l n hk, remove_leaf s l n hk⟩

/-- Witness for C10: adding and removing a node on the detached leaf `2`. -/
theorem leaf_add_remove_noop_witness :
    (exTwo 2).kind = NodeKind.leaf ∧ add exTwo 2 0 = exTwo ∧
      remove exTwo 2 0 = exTwo :=
  ⟨rfl, (leaf_add_remove_noop exTwo 2 0 rfl).1,
    (leaf_add_remove_noop exTwo 2 0 rfl).2⟩

/-! ### C7: parent consistency across add / remove -/

/-- C7: immediately after `add(p, n)` the parent of `n` is `p`
(`component->set_parent(this)`), and after a subsequent `remove(p, n)` the
parent of `n` is null (`component->set_parent(nullptr)`). -/
theorem parent_after_add_remove (s : State) (p n : NodeId)
    (hk : (s p).kind = .composite) :
    ((add s p n) n).parent = .ref p ∧
      ((remove (add s p n) p n) n).parent = .null := by
  constructor
  · rw [add_parent s p n n hk]
    simp
  · rw [remove_parent (add s p n) p n n (by simp [hk])]
    simp

/-- Witness for C7 on a concrete heap: composite `1`, leaf `2`. -/
theorem parent_after_add_remove_witness :
    ((add exTwo 1 2) 2).parent = Parent.ref 1 ∧
      ((remove (add exTwo 1 2) 1 2) 2).parent = Parent.null :=
  parent_after_add_remove exTwo 1 2 rfl

/-! ### C8: `add` performs no membership check -/

/-- C8: `Composite::add` unconditionally appends to `children_` and sets the
child's parent, with no membership check; adding the same node twice leaves it
twice in `children_` (exactly twice when it was absent before). -/
theorem add_no_membership_check (s : State) (p n : NodeId)
    (hk : (s p).kind = .composite) :
    ((add s p n) p).children = (s p).children ++ [n] ∧
    ((add s p n) n).parent = .ref p ∧
    ((add (add s p n) p n) p).children = (s p).children ++ [n] ++ [n] ∧
    (n ∉ (s p).children →
      ((add (add s p n) p n) p).children.count n = 2) := by
  have hk1 : ((add s p n) p).kind = .composite := by simp [hk]
  have h1 : ((add s p n) p).children = (s p).children ++ [n] := by
    rw [add_children s p n p hk]; simp
  have h2 : ((add (add s p n) p n) p).children = (s p).children ++ [n] ++ [n] := by
    rw [add_children (add s p n) p n p hk1]
    simp [h1]
  refine ⟨h1, ?_, h2, ?_⟩
  · rw [add_parent s p n n hk]; simp
  · intro hmem
    rw [h2]
    simp [List.count_append, List.count_eq_zero.mpr hmem]

/-- Witness for C8: adding leaf `2` to the empty composite `0` twice. -/
theorem add_no_membership_check_witness :
    ((add exTwo 0 2) 0).children = (exTwo 0).children ++ [2] ∧
    ((add exTwo 0 2) 2).parent = Parent.ref 0 ∧
    ((add (add exTwo 0 2) 0 2) 0).children = (exTwo 0).children ++ [2] ++ [2] ∧
    (2 ∉ (exTwo 0).children →
      ((add (add exTwo 0 2) 0 2) 0).children.count 2 = 2) :=
  add_no_membership_check exTwo 0 2 rfl

/-! ### C2: `add` does not detach from the previous parent -/

/-- C2 counterexample: `add(p1, n)` then `add(p2, n)` with composites
`p1 = 0`, `p2 = 1` and leaf `n = 2`.  The claim says `n` ends up absent from
`p1.children_`; in fact `Composite::add` never detaches, so `n` is still in
`p1.children_`. -/
theorem add_detach_counterexample :
    ((add (add exTwo 0 2) 1 2) 0).children = [2] ∧
    2 ∈ ((add (add exTwo 0 2) 1 2) 0).children ∧
    ((add (add exTwo 0 2) 1 2) 1).children = [2] ∧
    ((add (add exTwo 0 2) 1 2) 2).parent = Parent.ref 1 := by
  refine ⟨rfl, ?_, rfl, rfl⟩
  decide

/-- C2 amended: `add(p1, n)` followed by `add(p2, n)` leaves `n` appended to
(hence still present in) `p1.children_`, appends it once to `p2.children_`
(so it occurs exactly once there when it was absent before), and sets `n`'s
parent to `p2`.  No detaching from the previous parent happens. -/
theorem add_does_not_detach (s : State) (p1 p2 n : NodeId)
    (h1 : (s p1).kind = .composite) (h2 : (s p2).kind = .composite)
    (hne : p1 ≠ p2) (hmem : n ∉ (s p2).children) :
    ((add (add s p1 n) p2 n) p1).children = (s p1).children ++ [n] ∧
    n ∈ ((add (add s p1 n) p2 n) p1).children ∧
    ((add (add s p1 n) p2 n) p2).children = (s p2).children ++ [n] ∧
    ((add (add s p1 n) p2 n) p2).children.count n = 1 ∧
    ((add (add s p1 n) p2 n) n).parent = .ref p2 := by
  have h2' : ((add s p1 n) p2).kind = .composite := by simp [h2]
  have hc1 : ((add (add s p1 n) p2 n) p1).children = (s p1).children ++ [n] := by
    rw [add_children (add s p1 n) p2 n p1 h2', if_neg hne,
      add_children s p1 n p1 h1, if_pos rfl]
  have hc2 : ((add (add s p1 n) p2 n) p2).children = (s p2).children ++ [n] := by
    rw [add_children (add s p1 n) p2 n p2 h2', if_pos rfl,
      add_children s p1 n p2 h1, if_neg (fun h => hne h.symm)]
  refine ⟨hc1, ?_, hc2, ?_, ?_⟩
  · rw [hc1]; simp
  · rw [hc2]
    simp [List.count_append, List.count_eq_zero.mpr hmem]
  · rw [add_parent (add s p1 n) p2 n n h2', if_pos rfl]

/-- Witness for C2 (amended) on the concrete heap `exTwo`. -/
theorem add_does_not_detach_witness :
    ((add (add exTwo 0 2) 1 2) 0).children = (exTwo 0).children ++ [2] ∧
    2 ∈ ((add (add exTwo 0 2) 1 2) 0).children ∧
    ((add (add exTwo 0 2) 1 2) 1).children = (exTwo 1).children ++ [2] ∧
    ((add (add exTwo 0 2) 1 2) 1).children.count 2 = 1 ∧
    ((add (add exTwo 0 2) 1 2) 2).parent = Parent.ref 1 :=
  add_does_not_detach exTwo 0 1 2 rfl rfl (by decide) (by decide)

/-! ### C3: no cycle check in `add` -/

/-- C3 counterexample: composite `0` has child composite `1` (so `1` is a
descendant of `0`).  The claim says `add(1, 0)` fails with `CycleDetected`
and leaves the tree unchanged; in fact `Composite::add` performs no check:
it appends `0` to `1.children_` (which changes from `[]` to `[0]`) and sets
`0`'s parent to `1`. -/
theorem add_cycle_counterexample :
    Descendant exChain 0 1 ∧
    (exChain 1).children = ([] : List NodeId) ∧
    ((add exChain 1 0) 1).children = [0] ∧
    ((add exChain 1 0) 0).parent = Parent.ref 1 :=
  ⟨Descendant.step 1 (by decide), rfl, rfl, rfl⟩

/-- Membership in a `children_` list survives `add` (which only ever appends
to one `children_` list and rewrites one `parent_`). -/
theorem mem_children_add (s : State) (d c q x : NodeId)
    (h : x ∈ (s q).children) : x ∈ ((add s d c) q).children := by
  cases hk : (s d).kind with
  | leaf => rw [add_leaf s d c hk]; exact h
  | composite =>
    rw [add_children s d c q hk]
    split
    · rename_i hq
      subst hq
      exact List.mem_append_left _ h
    · exact h

/-- The `Descendant` relation survives `add`. -/
theorem descendant_add (s : State) (d c root x : NodeId)
    (h : Descendant s root x) : Descendant (add s d c) root x := by
  induction h with
  | step y hy => exact Descendant.step y (mem_children_add s d c root y hy)
  | tail p y _ hy ih => exact Descendant.tail p y ih (mem_children_add s d c p y hy)

/-- C3 amended: adding a Container `c` to one of its own descendants `d` is
NOT rejected — `Composite::add` has no cycle check and no error channel.  It
appends `c` to `d.children_`, sets `c`'s parent to `d`, and thereby makes `c`
a descendant of itself (a cycle, violating invariant I1). -/
theorem add_creates_cycle (s : State) (c d : NodeId)
    (hk : (s d).kind = .composite) (hdesc : Descendant s c d) :
    ((add s d c) d).children = (s d).children ++ [c] ∧
    ((add s d c) c).parent = .ref d ∧
    Descendant (add s d c) c c := by
  have hch : ((add s d c) d).children = (s d).children ++ [c] := by
    rw [add_children s d c d hk, if_pos rfl]
  refine ⟨hch, ?_, ?_⟩
  · rw [add_parent s d c c hk, if_pos rfl]
  · refine Descendant.tail d c (descendant_add s d c c d hdesc) ?_
    rw [hch]
    exact List.mem_append_right _ (by simp)

/-- Witness for C3 (amended) on the concrete heap `exChain`. -/
theorem add_creates_cycle_witness :
    ((add exChain 1 0) 1).children = (exChain 1).children ++ [0] ∧
    ((add exChain 1 0) 0).parent = Parent.ref 1 ∧
    Descendant (add exChain 1 0) 0 0 :=
  add_creates_cycle exChain 0 1 rfl (Descendant.step 1 (by decide))

/-! ### C4: `remove` deletes every occurrence, not just the first -/

/-- C4 counterexample: composite `0` holds leaf `1` twice; the claim says
`remove(0, 1)` deletes exactly the first occurrence, leaving `[1]`, but
`std::list::remove` erases every element equal to its argument, leaving `[]`. -/
theorem remove_first_counterexample :
    (exDup 0).children = [1, 1] ∧
    ((remove exDup 0 1) 0).children = ([] : List NodeId) ∧
    ([] : List NodeId) ≠ [1] :=
  ⟨rfl, rfl, by decide⟩

/-- C4 amended: writing `p.children_` as `l1 ++ n :: l2` with `n ∉ l1`,
`remove(p, n)` deletes the first occurrence of `n` AND every later occurrence
(`std::list::remove` semantics), keeps the remaining elements in their
relative order, and clears `n`'s parent.  In particular, for three distinct
children `[a, b, c]`, removing `b` yields `[a, c]`. -/
theorem remove_removes_all (s : State) (p n : NodeId)
    (hk : (s p).kind = .composite) (l1 l2 : List NodeId)
    (hsplit : (s p).children = l1 ++ n :: l2) (hn1 : n ∉ l1) :
    ((remove s p n) p).children = l1 ++ listRemoveAll n l2 ∧
    n ∉ ((remove s p n) p).children ∧
    ((remove s p n) n).parent = .null := by
  have hch : ((remove s p n) p).children = l1 ++ listRemoveAll n l2 := by
    rw [remove_children s p n p hk, if_pos rfl, hsplit,
      listRemoveAll_append, listRemoveAll_of_not_mem n l1 hn1]
    simp [listRemoveAll]
  refine ⟨hch, ?_, ?_⟩
  · rw [hch]
    simp only [List.mem_append, not_or]
    exact ⟨hn1, not_mem_listRemoveAll n l2⟩
  · rw [remove_parent s p n n hk, if_pos rfl]

/-- Witness for C4 (amended): removing the middle leaf `2` from the composite
`0` holding `[1, 2, 3]` yields `[1, 3]` in that order (property P7). -/
theorem remove_removes_all_witness :
    ((remove exABC 0 2) 0).children = [1] ++ listRemoveAll 2 [3] ∧
    2 ∉ ((remove exABC 0 2) 0).children ∧
    ((remove exABC 0 2) 2).parent = Parent.null :=
  remove_removes_all exABC 0 2 rfl [1] [3] rfl (by decide)

/-! ### C5: removing an absent child still clears its parent pointer -/

/-- C5 counterexample: leaf `2` is owned by composite `0` (its parent is `0`)
and is absent from composite `1`'s children.  The claim says `remove(1, 2)`
leaves `2`'s parent untouched; in fact `Composite::remove` calls
`component->set_parent(nullptr)` unconditionally, so `2`'s parent is wiped
from `0` to null. -/
theorem remove_absent_counterexample :
    2 ∉ (exOwn 1).children ∧
    (exOwn 2).parent = Parent.ref 0 ∧
    ((remove exOwn 1 2) 2).parent = Parent.null ∧
    Parent.null ≠ Parent.ref 0 :=
  ⟨by decide, rfl, rfl, by decide⟩

/-- C5 amended: when `n` is not in `p.children_`, `remove(p, n)` leaves
`p.children_` (and every node other than `n`) unchanged and signals no
error, but it unconditionally clears `n`'s parent pointer to null. -/
theorem remove_absent_clears_parent (s : State) (p n : NodeId)
    (hk : (s p).kind = .composite) (hmem : n ∉ (s p).children) :
    ((remove s p n) p).children = (s p).children ∧
    ((remove s p n) n).parent = .null ∧
    ∀ q, q ≠ n → (remove s p n) q = s q := by
  refine ⟨?_, ?_, ?_⟩
  · rw [remove_children s p n p hk, if_pos rfl,
      listRemoveAll_of_not_mem n _ hmem]
  · rw [remove_parent s p n n hk, if_pos rfl]
  · intro q hq
    rw [remove_composite s p n hk]
    simp only [setParent_apply, setChildren_apply, if_neg hq]
    split
    · rename_i hp
      subst hp
      rw [listRemoveAll_of_not_mem n _ hmem]
    · rfl

/-- Witness for C5 (amended) on the concrete heap `exOwn`. -/
theorem remove_absent_clears_parent_witness :
    ((remove exOwn 1 2) 1).children = (exOwn 1).children ∧
    ((remove exOwn 1 2) 2).parent = Parent.null ∧
    ∀ q, q ≠ 2 → (remove exOwn 1 2) q = exOwn q :=
  remove_absent_clears_parent exOwn 1 2 rfl (by decide)

/-! ### C6: a freshly constructed node has an *uninitialized* parent -/

/-- C6: the claim says a freshly constructed Leaf or Container has a null
parent.  The class declares `Component *parent_;` with no initializer and
`Component() = default`, so a default-initialized node (`Leaf l;`) has an
indeterminate `parent_`, not null — reading it is undefined behavior.  The
demo's own `main()` only ever constructs nodes through
`std::make_unique`/`std::make_shared`, whose `new T()` value-initializes and
therefore zero-initializes `parent_` to null; the intended invariant thus
holds there but is not established by the class itself. -/
theorem fresh_parent_uninitialized :
    (defaultInitNode .leaf).parent = Parent.uninit ∧
    (defaultInitNode .composite).parent = Parent.uninit ∧
    Parent.uninit ≠ Parent.null ∧
    (valueInitNode .leaf).parent = Parent.null ∧
    (valueInitNode .composite).parent = Parent.null :=
  ⟨rfl, rfl, by decide, rfl, rfl⟩

/-! ### C1: the aggregation string of `Composite::execute` -/

theorem joinPlus_cons (r : String) (rs : List String) (h : rs ≠ []) :
    joinPlus (r :: rs) = r ++ "+" ++ joinPlus rs := by
  cases rs with
  | nil => exact absurd rfl h
  | cons x xs => rfl

theorem resultsOf_cons_ne_nil (ex : State → NodeId → Option (String × State))
    (s : State) (c : NodeId) (l : List NodeId) (rs : List String)
    (h : resultsOf ex s (c :: l) = some rs) : rs ≠ [] := by
  simp only [resultsOf] at h
  split at h
  · exact absurd h (by simp)
  · split at h
    · exact absurd h (by simp)
    · simp only [Option.some.injEq] at h
      rw [← h]
      simp

/-- One unfolding of the `execute` loop when both the head call and the rest
of the loop succeed. -/
theorem execChildren_cons_eq (ex : State → NodeId → Option (String × State))
    (lastOpt : Option NodeId) (s : State) (c : NodeId) (rest : List NodeId)
    (rc : String) (s1 : State) (rr : String) (s2 : State)
    (hc : ex s c = some (rc, s1))
    (hrest : execChildren ex lastOpt s1 rest = some (rr, s2)) :
    execChildren ex lastOpt s (c :: rest) =
      some ((if some c = lastOpt then rc else rc ++ "+") ++ rr, s2) := by
  simp only [execChildren, hc, hrest]

/-- The loop of `Composite::execute`, on a children list whose last element
does not also occur earlier, produces exactly the `"+"`-separated join of the
children's results.  (`hex` says the child calls do not mutate the heap, as
proved for `executeSt` in `executeSt_pure`.) -/
theorem execChildren_join (ex : State → NodeId → Option (String × State))
    (hex : ∀ t c r t', ex t c = some (r, t') → t' = t)
    (lastOpt : Option NodeId) :
    ∀ (cs : List NodeId) (s : State) (rs : List String),
      resultsOf ex s cs = some rs →
      (∀ c ∈ cs.dropLast, some c ≠ lastOpt) →
      (cs = [] ∨ cs.getLast? = lastOpt) →
      execChildren ex lastOpt s cs = some (joinPlus rs, s) := by
  intro cs
  induction cs with
  | nil =>
    intro s rs h _ _
    simp only [resultsOf, Option.some.injEq] at h
    subst h
    rfl
  | cons c rest ih =>
    intro s rs h hdrop hlast
    simp only [resultsOf] at h
    split at h
    · exact absurd h (by simp)
    · rename_i rc s1 hc
      split at h
      · exact absurd h (by simp)
      · rename_i rs' hrest
        simp only [Option.some.injEq] at h
        subst h
        have hs1 : s1 = s := hex s c rc s1 hc
        rw [hs1] at hc
        cases rest with
        | nil =>
          simp only [resultsOf, Option.some.injEq] at hrest
          subst hrest
          have hl : some c = lastOpt := by
            rcases hlast with h' | h'
            · exact absurd h' (by simp)
            · simpa using h'
          rw [execChildren_cons_eq ex lastOpt s c [] rc s "" s hc rfl,
            if_pos hl, String.append_empty]
          rfl
        | cons d ds =>
          have hdrop' : ∀ x ∈ (d :: ds).dropLast, some x ≠ lastOpt := by
            intro x hx
            exact hdrop x (List.mem_cons_of_mem c hx)
          have hlast' : (d :: ds) = [] ∨ (d :: ds).getLast? = lastOpt := by
            right
            rcases hlast with h' | h'
            · exact absurd h' (by simp)
            · rw [← h']
              rfl
          have hrec := ih s rs' hrest hdrop' hlast'
          have hcne : some c ≠ lastOpt := hdrop c (List.mem_cons_self c _)
          have hne' : rs' ≠ [] := resultsOf_cons_ne_nil ex s d ds rs' hrest
          rw [execChildren_cons_eq ex lastOpt s c (d :: ds) rc s
              (joinPlus rs') s hc hrec,
            if_neg hcne, joinPlus_cons rc rs' hne']

/-- Dispatch of `executeSt` on a composite node. -/
theorem executeSt_composite (fuel : Nat) (s : State) (self : NodeId)
    (hk : (s self).kind = .composite) :
    executeSt (fuel + 1) s self =
      match execChildren (executeSt fuel) ((s self).children.getLast?) s
          (s self).children with
      | none => none
      | some (r, s') => some ("Branch(" ++ r ++ ")", s') := by
  unfold executeSt
  rw [hk]

/-- C1 (amended): `Composite::execute` wraps the loop's string as
`"Branch(" + result + ")"`, and — provided the last child does not also occur
earlier in `children_` (e.g. whenever `children_` has no duplicates, and
vacuously when it is empty, where the result is `"Branch()"`) — the loop
result is exactly the children's results joined with `"+"` between
consecutive elements and no trailing separator.  The proviso is forced by the
loop's test `c == children_.back()`, which suppresses the separator after
*every* occurrence of the last child, not only the final one. -/
theorem execute_composite_join (fuel : Nat) (s : State) (self : NodeId)
    (rs : List String)
    (hk : (s self).kind = .composite)
    (hlast : ∀ c ∈ (s self).children.dropLast,
      some c ≠ (s self).children.getLast?)
    (hres : childResults fuel s (s self).children = some rs) :
    executeSt (fuel + 1) s self = some ("Branch(" ++ joinPlus rs ++ ")", s) := by
  have hjoin : execChildren (executeSt fuel) ((s self).children.getLast?) s
      (s self).children = some (joinPlus rs, s) :=
    execChildren_join (executeSt fuel)
      (fun t c r t' => executeSt_preserves_state fuel t c r t')
      ((s self).children.getLast?) (s self).children s rs hres hlast
      (Or.inr rfl)
  rw [executeSt_composite fuel s self hk, hjoin]

/-- C1 counterexample: composite `0` holds the same leaf `1` twice.  The
children's results are `["Leaf", "Leaf"]`, so the claim predicts
`"Branch(Leaf+Leaf)"`, but the loop's `c == children_.back()` test also
matches the first occurrence and drops its separator: the code returns
`"Branch(LeafLeaf)"`. -/
theorem execute_join_counterexample :
    (exDup 0).children = [1, 1] ∧
    childResults 1 exDup (exDup 0).children = some ["Leaf", "Leaf"] ∧
    executeSt 2 exDup 0 = some ("Branch(LeafLeaf)", exDup) ∧
    "Branch(LeafLeaf)" ≠ "Branch(" ++ joinPlus ["Leaf", "Leaf"] ++ ")" :=
  ⟨rfl, rfl, rfl, by decide⟩

/-- Witness for C1 (amended) at the demo tree of `main()` (property P4):
the nested tree renders `"Branch(Branch(Leaf+Leaf)+Branch(Leaf))"`. -/
theorem execute_composite_join_witness :
    executeSt 3 exP4 0 =
      some ("Branch(" ++ joinPlus ["Branch(Leaf+Leaf)", "Branch(Leaf)"] ++ ")",
        exP4) :=
  execute_composite_join 2 exP4 0 ["Branch(Leaf+Leaf)", "Branch(Leaf)"] rfl
    (by decide) rfl

end CompositeDemo
